import Mathlib

/-!
Verification of the priority-ordered work scheduler implemented in
`Source/Urho3D/Core/WorkQueue.cpp`.

The scheduler state is embedded shallowly: `SharedPtr<WorkItem>` values are
modelled by natural-number identifiers, the shared mutable item records by a
heap `Nat → WorkItem`, and the container fields of `WorkQueue`
(`workItems_`, `queue_`, `poolItems_`) by lists of identifiers.  Mutation of a
shared item (for example setting `completed_`) is a heap update, so it is
visible through every list holding the identifier, exactly as the C++ lists of
shared pointers alias one underlying object.  The pause mutex, which `Pause`
holds continuously so that no worker can acquire it, is modelled by the
`paused` flag: a worker's dequeue step is enabled only when the mutex is free.
-/

namespace WorkQueueModel

/-- The `WorkItem` record (fields used by `WorkQueue.cpp`): the three opaque
context pointers `start_`/`end_`/`aux_`, the entry point `workFunction_`
(pointers modelled as `Nat`, `0` playing the role of null), the unsigned
`priority_`, and the flags `sendEvent_`, `completed_`, `pooled_`. -/
structure WorkItem where
  startPtr : Nat
  endPtr : Nat
  auxPtr : Nat
  workFunction : Nat
  priority : Nat
  sendEvent : Bool
  completed : Bool
  pooled : Bool
deriving DecidableEq

/-- The shared heap of work-item records, indexed by item identity. -/
abbrev Heap := Nat → WorkItem

/-- Point update of the heap (a write through a shared pointer). -/
def hupdate (h : Heap) (id : Nat) (v : WorkItem) : Heap :=
  fun i => if i = id then v else h i

/-- The constant `M_MAX_UNSIGNED` from the engine's math definitions: the largest 32-bit
unsigned value, `0xffffffff`. -/
def M_MAX_UNSIGNED : Nat := 4294967295

/-- The scheduler state: the fields of `WorkQueue` that the verified
operations touch.  `workItems` is the live list `workItems_` of owning
references, `queue` the priority queue `queue_` of raw pointers, `poolItems`
the free list `poolItems_`.  `paused` models the pause mutex being held by
`Pause`; `numThreads` is `threads.size()`; `lastSize`/`tolerance` are the
`PurgePool` bookkeeping fields; `nextId` is the allocator for fresh items. -/
structure WQState where
  heap : Heap
  workItems : List Nat
  queue : List Nat
  poolItems : List Nat
  paused : Bool
  numThreads : Nat
  lastSize : Nat
  tolerance : Int
  nextId : Nat

/-- Setting the `completed_` flag of one shared item. -/
def setCompleted (h : Heap) (id : Nat) (b : Bool) : Heap :=
  hupdate h id { h id with completed := b }

/-- Executing a dequeued item, `item->workFunction_(item, index);
item->completed_ = true;` — a
dequeued item.  The entry point only touches submitter-owned payload, so its
scheduler-visible effect is the `completed_` write. -/
def markCompleted (h : Heap) (id : Nat) : Heap :=
  setCompleted h id true

/-- The field resets performed by `WorkQueue::ReturnToPool`
(WorkQueue.cpp lines 399-405): context pointers and entry point nulled,
`priority_ = M_MAX_UNSIGNED`, `sendEvent_` and `completed_` cleared.
`pooled_` is not touched. -/
def resetItem (w : WorkItem) : WorkItem :=
  { w with startPtr := 0, endPtr := 0, auxPtr := 0, workFunction := 0,
           priority := M_MAX_UNSIGNED, sendEvent := false, completed := false }

/-- Embeds `WorkQueue::ReturnToPool` (lines 390-409): a pooled item is reset and
appended to the free list; a non-pooled item is dropped unchanged. -/
def returnToPool (h : Heap) (pool : List Nat) (id : Nat) : Heap × List Nat :=
  if (h id).pooled then (hupdate h id (resetItem (h id)), pool ++ [id])
  else (h, pool)

/-- Modelled from the spec: the `WorkItem` default constructor lives in the
header `WorkQueue.h`, which is not among the sources; the spec's data model
(§3) describes a fresh instance as default-cleared.  `GetFreeItem` itself
(WorkQueue.cpp line 126) then sets `pooled_ = true`. -/
def freshWorkItem : WorkItem :=
  { startPtr := 0, endPtr := 0, auxPtr := 0, workFunction := 0,
    priority := 0, sendEvent := false, completed := false, pooled := true }

/-- Embeds `WorkQueue::GetFreeItem` (lines 114-129): pop the front of the free list
if it is non-empty, otherwise allocate a fresh poolable item. -/
def getFreeItem (s : WQState) : Nat × WQState :=
  match s.poolItems with
  | id :: rest => (id, { s with poolItems := rest })
  | [] =>
    (s.nextId,
     { s with heap := hupdate s.heap s.nextId freshWorkItem,
              nextId := s.nextId + 1 })

/-- The insertion scan of `WorkQueue::AddWorkItem` (lines 153-174): walk the
queue from the front and insert before the first entry whose priority is `<=`
the new item's; if no such entry exists (or the queue is empty), push back. -/
def insertByPriority (h : Heap) (id : Nat) : List Nat → List Nat
  | [] => [id]
  | x :: xs =>
    if (h x).priority ≤ (h id).priority then id :: x :: xs
    else x :: insertByPriority h id xs

/-- Embeds `WorkQueue::AddWorkItem` (lines 131-181).  A null item is logged and
dropped (state unchanged).  A duplicate of a live item trips the
`assert` at line 140, modelled as `none`.  Otherwise the item is appended to
the live list, its `completed_` flag cleared, and it is inserted into the
queue by the priority scan; when worker threads exist the function ends by
unlocking the queue mutex and clearing `paused_` (line 176-180), so a
previously paused scheduler is resumed. -/
def addWorkItem (s : WQState) (item : Option Nat) : Option WQState :=
  match item with
  | none => some s
  | some id =>
    if s.workItems.contains id then none
    else
      some { s with
        heap := setCompleted s.heap id false,
        workItems := s.workItems ++ [id],
        queue := insertByPriority (setCompleted s.heap id false) id s.queue,
        paused := if s.numThreads ≠ 0 then false else s.paused }

/-- The removal body shared by `RemoveWorkItem` and `RemoveWorkItems`
(lines 191-202 and 214-225): if the item is still in the queue and in the
live list, erase it from both and pass it to `ReturnToPool`. -/
def removeOne (s : WQState) (id : Nat) : Bool × WQState :=
  if s.queue.contains id && s.workItems.contains id then
    (true,
     { s with queue := s.queue.erase id,
              workItems := s.workItems.erase id,
              heap := (returnToPool s.heap s.poolItems id).1,
              poolItems := (returnToPool s.heap s.poolItems id).2 })
  else (false, s)

/-- Embeds `WorkQueue::RemoveWorkItem` (lines 183-205): a null item fails; otherwise
the shared removal body runs under the queue lock. -/
def removeWorkItem (s : WQState) (item : Option Nat) : Bool × WQState :=
  match item with
  | none => (false, s)
  | some id => removeOne s id

/-- Embeds `WorkQueue::RemoveWorkItems` (lines 207-229): run the removal body for
each input item in order, counting the successes. -/
def removeWorkItems (s : WQState) : List Nat → Nat × WQState
  | [] => (0, s)
  | id :: rest =>
    let r := removeOne s id
    let rr := removeWorkItems r.2 rest
    (if r.1 then rr.1 + 1 else rr.1, rr.2)

/-- Embeds `WorkQueue::Pause` (lines 231-242): lock the queue mutex and keep it,
setting `paused_`.  A no-op while already paused. -/
def pause (s : WQState) : WQState :=
  if s.paused then s else { s with paused := true }

/-- Embeds `WorkQueue::Resume` (lines 244-251): release the mutex if paused. -/
def resume (s : WQState) : WQState :=
  if s.paused then { s with paused := false } else s

/-- Embeds `WorkQueue::IsCompleted` (lines 306-315): false iff some live item has
`priority_ >= priority` and `completed_ == false`. -/
def isCompleted (s : WQState) (priority : Nat) : Bool :=
  s.workItems.all fun id =>
    !(decide (priority ≤ (s.heap id).priority) && !(s.heap id).completed)

/-- One non-blocking iteration of `WorkQueue::ProcessItems` (lines 317-350).
While the scheduler is paused the pause mutex is held, so the worker's
`queueMutex_.lock()` cannot be acquired and no dequeue happens; otherwise the
worker pops the front item (if any), executes it and marks it completed. -/
def workerStep (s : WQState) : WQState :=
  if s.paused then s
  else
    match s.queue with
    | [] => s
    | id :: rest => { s with queue := rest, heap := markCompleted s.heap id }

/-- The purge test of `WorkQueue::PurgeCompleted` (line 359):
`(*i)->completed_ && (*i)->priority_ >= priority`. -/
def purgeable (h : Heap) (p : Nat) (id : Nat) : Bool :=
  (h id).completed && decide (p ≤ (h id).priority)

/-- The sweep of `WorkQueue::PurgeCompleted` (lines 357-375) over the live
list: returns the final heap, the final free list, the surviving live list,
and the identities announced through `E_WORKITEMCOMPLETED` in order. -/
def purgeCompletedAux (p : Nat) : Heap → List Nat → List Nat → Heap × List Nat × List Nat × List Nat
  | h, pool, [] => (h, pool, [], [])
  | h, pool, id :: rest =>
    if purgeable h p id then
      let hp := returnToPool h pool id
      let r := purgeCompletedAux p hp.1 hp.2 rest
      (r.1, r.2.1, r.2.2.1, (if (h id).sendEvent then [id] else []) ++ r.2.2.2)
    else
      let r := purgeCompletedAux p h pool rest
      (r.1, r.2.1, id :: r.2.2.1, r.2.2.2)

/-- Embeds `WorkQueue::PurgeCompleted` (lines 352-376): sweep the live list, sending
a completion event for each purged item with `sendEvent_`, returning each to
the pool, and erasing it from the live list.  The second component is the
list of event notifications emitted, in order. -/
def purgeCompleted (s : WQState) (p : Nat) : WQState × List Nat :=
  let r := purgeCompletedAux p s.heap s.poolItems s.workItems
  ({ s with heap := r.1, poolItems := r.2.1, workItems := r.2.2.1 }, r.2.2.2)

/-- The main-thread drain loop of `WorkQueue::Complete` (lines 293-299):
pop and execute front items while the front priority is `>= priority`. -/
def drainAtLeast (p : Nat) : Heap → List Nat → Heap × List Nat
  | h, [] => (h, [])
  | h, id :: rest =>
    if p ≤ (h id).priority then drainAtLeast p (markCompleted h id) rest
    else (h, id :: rest)

/-- Embeds `WorkQueue::Complete` (lines 254-304), the deterministic no-worker-thread
branch (lines 290-300) followed by the unconditional `PurgeCompleted` at line
302.  With worker threads the same drain runs on the calling thread and the
busy-wait at lines 282-284 enforces the identical `IsCompleted` postcondition
before the purge. -/
def complete (s : WQState) (p : Nat) : WQState × List Nat :=
  let r := drainAtLeast p s.heap s.queue
  purgeCompleted { s with heap := r.1, queue := r.2 } p

/-- The trim loop of `WorkQueue::PurgePool` (lines 384-385): pop front items
while the pool is non-empty, the shrink `difference` exceeds the tolerance,
and fewer than `difference` items have been popped. -/
def purgePoolLoop (difference tolerance : Int) : List Nat → Nat → List Nat
  | [], _ => []
  | x :: rest, i =>
    if difference > tolerance ∧ (i : Int) < difference then
      purgePoolLoop difference tolerance rest (i + 1)
    else x :: rest

/-- Embeds `WorkQueue::PurgePool` (lines 378-388): compute the shrink since the last
purge, trim with the hysteresis tolerance, and record the size observed at
entry as the next reference. -/
def purgePool (s : WQState) : WQState :=
  { s with
    poolItems :=
      purgePoolLoop ((s.lastSize : Int) - (s.poolItems.length : Int)) s.tolerance s.poolItems 0,
    lastSize := s.poolItems.length }

/-- The non-threaded drain loop of `WorkQueue::HandleBeginFrame`
(lines 420-426).  The `HiresTimer` budget check
`timer.GetUSec(false) < maxNonThreadedWorkMs_ * 1000` before the i-th dequeue
is modelled by the oracle `timeAllows i`. -/
def frameDrain (timeAllows : Nat → Bool) : Heap → List Nat → Nat → Heap × List Nat
  | h, [], _ => (h, [])
  | h, id :: rest, i =>
    if timeAllows i then frameDrain timeAllows (markCompleted h id) rest (i + 1)
    else (h, id :: rest)

/-- Embeds `WorkQueue::HandleBeginFrame` (lines 411-432): with no worker threads,
drain the queue on the calling thread under the time budget; always finish
with `PurgeCompleted(0)` and then `PurgePool()`.  The second component is the
list of completion events emitted by the purge. -/
def handleBeginFrame (s : WQState) (timeAllows : Nat → Bool) : WQState × List Nat :=
  let s1 :=
    if s.numThreads = 0 then
      let r := frameDrain timeAllows s.heap s.queue 0
      { s with heap := r.1, queue := r.2 }
    else s
  let r2 := purgeCompleted s1 0
  (purgePool r2.1, r2.2)

/-- The scheduler operations, as labels of a step relation on `WQState`. -/
inductive Op where
  | pauseOp : Op
  | resumeOp : Op
  | addOp : Nat → Op
  | removeOp : Nat → Op
  | removeManyOp : List Nat → Op
  | workerOp : Op
  | completeOp : Nat → Op
  | purgeOp : Nat → Op
  | purgePoolOp : Op
  | frameOp : (Nat → Bool) → Op

/-- Whether an operation is `Resume`. -/
def isResumeOp : Op → Bool
  | .resumeOp => true
  | _ => false

/-- One scheduler step.  A failed `AddWorkItem` assertion halts the program;
for state reasoning the halted step is modelled as leaving the state
unchanged. -/
def stepOp (s : WQState) : Op → WQState
  | .pauseOp => pause s
  | .resumeOp => resume s
  | .addOp id => (addWorkItem s (some id)).getD s
  | .removeOp id => (removeWorkItem s (some id)).2
  | .removeManyOp l => (removeWorkItems s l).2
  | .workerOp => workerStep s
  | .completeOp p => (complete s p).1
  | .purgeOp p => (purgeCompleted s p).1
  | .purgePoolOp => purgePool s
  | .frameOp tA => (handleBeginFrame s tA).1

/-- Iterated scheduler steps. -/
def stepOps (s : WQState) : List Op → WQState
  | [] => s
  | op :: rest => stepOps (stepOp s op) rest

/-- The priority order used by the queue: `a` is served no later than `b`. -/
def prioGE (h : Heap) : Nat → Nat → Prop :=
  fun a b => (h b).priority ≤ (h a).priority

instance (h : Heap) : DecidableRel (prioGE h) :=
  fun a b => inferInstanceAs (Decidable ((h b).priority ≤ (h a).priority))

/-- The combined scheduler invariant: the live list and queue hold no
duplicates, every queued item is live, the queue is sorted in non-increasing
priority order, queued items are not completed, and (in the sequential model,
where execution is atomic) live items that are no longer queued are
completed. -/
def Inv (s : WQState) : Prop :=
  s.workItems.Nodup ∧
  s.queue.Nodup ∧
  (∀ id ∈ s.queue, id ∈ s.workItems) ∧
  List.Sorted (prioGE s.heap) s.queue ∧
  (∀ id ∈ s.queue, (s.heap id).completed = false) ∧
  (∀ id ∈ s.workItems, id ∉ s.queue → (s.heap id).completed = true)

/-! ### Basic heap lemmas -/

theorem hupdate_same (h : Heap) (id : Nat) (v : WorkItem) : hupdate h id v id = v := by
  simp [hupdate]

theorem hupdate_other (h : Heap) (id x : Nat) (v : WorkItem) (hx : x ≠ id) :
    hupdate h id v x = h x := by
  simp [hupdate, hx]

theorem setCompleted_priority (h : Heap) (id x : Nat) (b : Bool) :
    (setCompleted h id b x).priority = (h x).priority := by
  by_cases hx : x = id
  · subst hx; simp [setCompleted, hupdate]
  · simp [setCompleted, hupdate, hx]

theorem setCompleted_other (h : Heap) (id x : Nat) (b : Bool) (hx : x ≠ id) :
    setCompleted h id b x = h x := by
  simp [setCompleted, hupdate, hx]

theorem setCompleted_same (h : Heap) (id : Nat) (b : Bool) :
    setCompleted h id b id = { h id with completed := b } := by
  simp [setCompleted, hupdate]

theorem prioGE_setCompleted (h : Heap) (id : Nat) (b : Bool) :
    prioGE (setCompleted h id b) = prioGE h := by
  funext a c
  simp [prioGE, setCompleted_priority]

theorem markCompleted_priority (h : Heap) (id x : Nat) :
    (markCompleted h id x).priority = (h x).priority :=
  setCompleted_priority h id x true

theorem markCompleted_other (h : Heap) (id x : Nat) (hx : x ≠ id) :
    markCompleted h id x = h x :=
  setCompleted_other h id x true hx

theorem markCompleted_completed_same (h : Heap) (id : Nat) :
    (markCompleted h id id).completed = true := by
  simp [markCompleted, setCompleted_same]

theorem markCompleted_mono (h : Heap) (id x : Nat) (hx : (h x).completed = true) :
    (markCompleted h id x).completed = true := by
  by_cases hxid : x = id
  · subst hxid; exact markCompleted_completed_same h x
  · rw [markCompleted_other h id x hxid]; exact hx

/-! ### Sortedness transfer between heaps that agree on priorities -/

theorem sorted_congr (h h' : Heap) (l : List Nat)
    (hag : ∀ x ∈ l, (h' x).priority = (h x).priority)
    (hs : List.Sorted (prioGE h) l) : List.Sorted (prioGE h') l := by
  refine List.Pairwise.imp_of_mem ?_ hs
  intro a b ha hb hab
  simpa [prioGE, hag a ha, hag b hb] using hab

/-! ### The insertion scan is an ordered insert -/

theorem insertByPriority_eq_orderedInsert (h : Heap) (id : Nat) (q : List Nat) :
    insertByPriority h id q = List.orderedInsert (prioGE h) id q := by
  induction q with
  | nil => rfl
  | cons x xs ih =>
    by_cases hc : (h x).priority ≤ (h id).priority
    · simp [insertByPriority, List.orderedInsert, prioGE, hc]
    · simp [insertByPriority, List.orderedInsert, prioGE, hc, ih]

theorem mem_insertByPriority (h : Heap) (id x : Nat) (q : List Nat) :
    x ∈ insertByPriority h id q ↔ x = id ∨ x ∈ q := by
  rw [insertByPriority_eq_orderedInsert]
  exact List.mem_orderedInsert (prioGE h)

theorem insertByPriority_sorted (h : Heap) (id : Nat) (q : List Nat)
    (hs : List.Sorted (prioGE h) q) :
    List.Sorted (prioGE h) (insertByPriority h id q) := by
  rw [insertByPriority_eq_orderedInsert]
  haveI : IsTotal Nat (prioGE h) :=
    ⟨fun a b => (Nat.le_total (h a).priority (h b).priority).symm⟩
  haveI : IsTrans Nat (prioGE h) :=
    ⟨fun _ _ _ hab hbc => Nat.le_trans hbc hab⟩
  exact hs.orderedInsert id q

theorem insertByPriority_nodup (h : Heap) (id : Nat) (q : List Nat)
    (hq : q.Nodup) (hid : id ∉ q) :
    (insertByPriority h id q).Nodup := by
  rw [insertByPriority_eq_orderedInsert]
  exact ((List.perm_orderedInsert (prioGE h) id q).nodup_iff).mpr
    (List.nodup_cons.mpr ⟨hid, hq⟩)

/-! ### ReturnToPool lemmas -/

theorem returnToPool_heap_other (h : Heap) (pool : List Nat) (id x : Nat) (hx : x ≠ id) :
    (returnToPool h pool id).1 x = h x := by
  by_cases hp : (h id).pooled
  · simp [returnToPool, hp, hupdate_other h id x _ hx]
  · simp [returnToPool, hp]

theorem returnToPool_pooled (h : Heap) (pool : List Nat) (id : Nat)
    (hp : (h id).pooled = true) :
    returnToPool h pool id = (hupdate h id (resetItem (h id)), pool ++ [id]) := by
  simp [returnToPool, hp]

theorem returnToPool_not_pooled (h : Heap) (pool : List Nat) (id : Nat)
    (hp : (h id).pooled = false) :
    returnToPool h pool id = (h, pool) := by
  simp [returnToPool, hp]

theorem returnToPool_pool_eq (h : Heap) (pool : List Nat) (id : Nat) :
    (returnToPool h pool id).2 = pool ++ (if (h id).pooled then [id] else []) := by
  by_cases hp : (h id).pooled <;> simp [returnToPool, hp]

/-! ### Lemmas about the `Complete` drain loop -/

theorem drainAtLeast_priority (p : Nat) :
    ∀ (q : List Nat) (h : Heap) (x : Nat),
      ((drainAtLeast p h q).1 x).priority = (h x).priority := by
  intro q
  induction q with
  | nil => intro h x; rfl
  | cons id rest ih =>
    intro h x
    by_cases hc : p ≤ (h id).priority
    · rw [drainAtLeast, if_pos hc, ih (markCompleted h id) x, markCompleted_priority]
    · rw [drainAtLeast, if_neg hc]

theorem drainAtLeast_completed_mono (p : Nat) :
    ∀ (q : List Nat) (h : Heap) (x : Nat), (h x).completed = true →
      ((drainAtLeast p h q).1 x).completed = true := by
  intro q
  induction q with
  | nil => intro h x hx; exact hx
  | cons id rest ih =>
    intro h x hx
    by_cases hc : p ≤ (h id).priority
    · rw [drainAtLeast, if_pos hc]
      exact ih (markCompleted h id) x (markCompleted_mono h id x hx)
    · rw [drainAtLeast, if_neg hc]; exact hx

theorem drainAtLeast_suffix (p : Nat) :
    ∀ (q : List Nat) (h : Heap), ∃ k, k ≤ q.length ∧ (drainAtLeast p h q).2 = q.drop k := by
  intro q
  induction q with
  | nil => intro h; exact ⟨0, Nat.le_refl 0, rfl⟩
  | cons id rest ih =>
    intro h
    by_cases hc : p ≤ (h id).priority
    · obtain ⟨k, hk, hdrop⟩ := ih (markCompleted h id)
      refine ⟨k + 1, Nat.succ_le_succ hk, ?_⟩
      rw [drainAtLeast, if_pos hc, hdrop, List.drop_succ_cons]
    · exact ⟨0, Nat.zero_le _, by simp [drainAtLeast, hc]⟩

theorem drainAtLeast_drained_completed (p : Nat) :
    ∀ (q : List Nat) (h : Heap) (x : Nat), x ∈ q → x ∉ (drainAtLeast p h q).2 →
      ((drainAtLeast p h q).1 x).completed = true := by
  intro q
  induction q with
  | nil => intro h x hx; exact absurd hx (List.not_mem_nil x)
  | cons id rest ih =>
    intro h x hx hns
    by_cases hc : p ≤ (h id).priority
    · rw [drainAtLeast, if_pos hc] at hns ⊢
      rcases List.mem_cons.mp hx with hxid | hxr
      · subst hxid
        exact drainAtLeast_completed_mono p rest (markCompleted h x) x
          (markCompleted_completed_same h x)
      · exact ih (markCompleted h id) x hxr hns
    · rw [drainAtLeast, if_neg hc] at hns
      exact absurd hx hns

theorem drainAtLeast_remaining_low (p : Nat) :
    ∀ (q : List Nat) (h : Heap), List.Sorted (prioGE h) q →
      ∀ x ∈ (drainAtLeast p h q).2, (h x).priority < p := by
  intro q
  induction q with
  | nil => intro h _ x hx; exact absurd hx (List.not_mem_nil x)
  | cons id rest ih =>
    intro h hs x hx
    by_cases hc : p ≤ (h id).priority
    · rw [drainAtLeast, if_pos hc] at hx
      have hs' : List.Sorted (prioGE (markCompleted h id)) rest :=
        sorted_congr h (markCompleted h id) rest
          (fun y _ => markCompleted_priority h id y) hs.of_cons
      have := ih (markCompleted h id) hs' x hx
      rwa [markCompleted_priority] at this
    · rw [drainAtLeast, if_neg hc] at hx
      rcases List.mem_cons.mp hx with hxid | hxr
      · subst hxid; exact Nat.lt_of_not_le hc
      · have hle : (h x).priority ≤ (h id).priority :=
          List.rel_of_sorted_cons hs x hxr
        exact Nat.lt_of_le_of_lt hle (Nat.lt_of_not_le hc)

theorem drainAtLeast_remaining_frame (p : Nat) :
    ∀ (q : List Nat) (h : Heap), q.Nodup →
      ∀ x ∈ (drainAtLeast p h q).2, (drainAtLeast p h q).1 x = h x := by
  intro q
  induction q with
  | nil => intro h _ x hx; exact absurd hx (List.not_mem_nil x)
  | cons id rest ih =>
    intro h hnd x hx
    by_cases hc : p ≤ (h id).priority
    · rw [drainAtLeast, if_pos hc] at hx ⊢
      have hxr : x ∈ rest := by
        obtain ⟨k, _, hdrop⟩ := drainAtLeast_suffix p rest (markCompleted h id)
        rw [hdrop] at hx
        exact List.mem_of_mem_drop hx
      have hxid : x ≠ id := fun he => (List.nodup_cons.mp hnd).1 (he ▸ hxr)
      rw [ih (markCompleted h id) (List.nodup_cons.mp hnd).2 x hx,
        markCompleted_other h id x hxid]
    · rw [drainAtLeast, if_neg hc]

/-! ### Lemmas about the frame-hook drain loop -/

theorem frameDrain_completed_mono (tA : Nat → Bool) :
    ∀ (q : List Nat) (h : Heap) (i x : Nat), (h x).completed = true →
      ((frameDrain tA h q i).1 x).completed = true := by
  intro q
  induction q with
  | nil => intro h i x hx; exact hx
  | cons id rest ih =>
    intro h i x hx
    by_cases hc : tA i = true
    · rw [frameDrain, if_pos hc]
      exact ih (markCompleted h id) (i + 1) x (markCompleted_mono h id x hx)
    · rw [frameDrain, if_neg hc]; exact hx

theorem frameDrain_spec (tA : Nat → Bool) :
    ∀ (q : List Nat) (h : Heap) (i : Nat),
      ∃ k, k ≤ q.length ∧ (frameDrain tA h q i).2 = q.drop k ∧
        (∀ j, j < k → tA (i + j) = true) ∧
        (k = q.length ∨ (k < q.length ∧ tA (i + k) = false)) ∧
        (∀ x ∈ q.take k, ((frameDrain tA h q i).1 x).completed = true) := by
  intro q
  induction q with
  | nil =>
    intro h i
    exact ⟨0, Nat.le_refl 0, rfl, fun j hj => absurd hj (Nat.not_lt_zero j),
      Or.inl rfl, fun x hx => absurd hx (List.not_mem_nil x)⟩
  | cons id rest ih =>
    intro h i
    by_cases hc : tA i = true
    · obtain ⟨k, hk, hdrop, hall, hstop, hdone⟩ := ih (markCompleted h id) (i + 1)
      refine ⟨k + 1, Nat.succ_le_succ hk, ?_, ?_, ?_, ?_⟩
      · rw [frameDrain, if_pos hc, hdrop, List.drop_succ_cons]
      · intro j hj
        cases j with
        | zero => simpa using hc
        | succ j' =>
          have hj' : j' < k := Nat.lt_of_succ_lt_succ hj
          convert hall j' hj' using 2
          omega
      · rcases hstop with he | ⟨hlt, hfa⟩
        · exact Or.inl (by simp [he])
        · refine Or.inr ⟨Nat.succ_lt_succ hlt, ?_⟩
          convert hfa using 2
          omega
      · intro x hx
        rw [frameDrain, if_pos hc]
        rw [List.take_succ_cons, List.mem_cons] at hx
        rcases hx with hxid | hxr
        · subst hxid
          exact frameDrain_completed_mono tA rest (markCompleted h x) (i + 1) x
            (markCompleted_completed_same h x)
        · exact hdone x hxr
    · have hcf : tA i = false := Bool.eq_false_iff.mpr hc
      refine ⟨0, Nat.zero_le _, ?_, fun j hj => absurd hj (Nat.not_lt_zero j),
        Or.inr ⟨Nat.succ_pos _, by simpa using hcf⟩,
        fun x hx => absurd hx (List.not_mem_nil x)⟩
      simp [frameDrain, hc]

/-! ### Characterization of the PurgeCompleted sweep -/

theorem purgeAux_spec (p : Nat) :
    ∀ (live : List Nat) (h : Heap) (pool : List Nat), live.Nodup →
      (purgeCompletedAux p h pool live).2.2.1 =
        live.filter (fun id => !purgeable h p id) ∧
      (purgeCompletedAux p h pool live).2.2.2 =
        live.filter (fun id => purgeable h p id && (h id).sendEvent) ∧
      (purgeCompletedAux p h pool live).2.1 =
        pool ++ live.filter (fun id => purgeable h p id && (h id).pooled) ∧
      (∀ x, (x ∈ live → purgeable h p x = false) →
        (purgeCompletedAux p h pool live).1 x = h x) := by
  intro live
  induction live with
  | nil =>
    intro h pool _
    refine ⟨rfl, rfl, by simp [purgeCompletedAux], fun x _ => rfl⟩
  | cons id rest ih =>
    intro h pool hnd
    have hid : id ∉ rest := (List.nodup_cons.mp hnd).1
    have hrest : rest.Nodup := (List.nodup_cons.mp hnd).2
    by_cases hpu : purgeable h p id = true
    · have hag : ∀ x ∈ rest, (returnToPool h pool id).1 x = h x := by
        intro x hx
        exact returnToPool_heap_other h pool id x (fun he => hid (he ▸ hx))
      obtain ⟨ih1, ih2, ih3, ih4⟩ :=
        ih (returnToPool h pool id).1 (returnToPool h pool id).2 hrest
      have hpcong : ∀ x ∈ rest,
          purgeable (returnToPool h pool id).1 p x = purgeable h p x := by
        intro x hx; simp [purgeable, hag x hx]
      refine ⟨?_, ?_, ?_, ?_⟩
      · rw [purgeCompletedAux, if_pos hpu]
        simp only []
        have hfc : List.filter (fun x => !purgeable (returnToPool h pool id).1 p x) rest
            = List.filter (fun x => !purgeable h p x) rest :=
          List.filter_congr (fun x hx => by rw [hpcong x hx])
        rw [ih1, hfc, List.filter_cons]
        simp [hpu]
      · rw [purgeCompletedAux, if_pos hpu]
        simp only []
        have hfc : List.filter
              (fun x => purgeable (returnToPool h pool id).1 p x &&
                ((returnToPool h pool id).1 x).sendEvent) rest
            = List.filter (fun x => purgeable h p x && (h x).sendEvent) rest :=
          List.filter_congr (fun x hx => by rw [hpcong x hx, hag x hx])
        rw [ih2, hfc, List.filter_cons]
        by_cases hse : (h id).sendEvent = true <;> simp [hpu, hse]
      · rw [purgeCompletedAux, if_pos hpu]
        simp only []
        have hfc : List.filter
              (fun x => purgeable (returnToPool h pool id).1 p x &&
                ((returnToPool h pool id).1 x).pooled) rest
            = List.filter (fun x => purgeable h p x && (h x).pooled) rest :=
          List.filter_congr (fun x hx => by rw [hpcong x hx, hag x hx])
        rw [ih3, hfc, returnToPool_pool_eq, List.filter_cons]
        by_cases hpo : (h id).pooled = true <;> simp [hpu, hpo]
      · intro x hx
        have hxid : x ≠ id := by
          intro he
          have hfx := hx (he ▸ List.mem_cons_self id rest)
          rw [he] at hfx
          rw [hfx] at hpu
          exact Bool.false_ne_true hpu
        rw [purgeCompletedAux, if_pos hpu]
        simp only []
        rw [ih4 x (fun hxr => by
          rw [hpcong x hxr]
          exact hx (List.mem_cons_of_mem id hxr))]
        exact returnToPool_heap_other h pool id x hxid
    · have hpuf : purgeable h p id = false := Bool.eq_false_iff.mpr hpu
      obtain ⟨ih1, ih2, ih3, ih4⟩ := ih h pool hrest
      refine ⟨?_, ?_, ?_, ?_⟩
      · rw [purgeCompletedAux, if_neg hpu]
        simp only []
        rw [ih1, List.filter_cons]
        simp [hpuf]
      · rw [purgeCompletedAux, if_neg hpu]
        simp only []
        rw [ih2, List.filter_cons]
        simp [hpuf]
      · rw [purgeCompletedAux, if_neg hpu]
        simp only []
        rw [ih3, List.filter_cons]
        simp [hpuf]
      · intro x hx
        rw [purgeCompletedAux, if_neg hpu]
        simp only []
        exact ih4 x (fun hxr => hx (List.mem_cons_of_mem id hxr))

/-! ### Frame-hook drain: priorities are never written -/

theorem frameDrain_priority (tA : Nat → Bool) :
    ∀ (q : List Nat) (h : Heap) (i x : Nat),
      ((frameDrain tA h q i).1 x).priority = (h x).priority := by
  intro q
  induction q with
  | nil => intro h i x; rfl
  | cons id rest ih =>
    intro h i x
    by_cases hc : tA i = true
    · rw [frameDrain, if_pos hc, ih (markCompleted h id) (i + 1) x, markCompleted_priority]
    · rw [frameDrain, if_neg hc]

/-! ### Frame-hook drain: the remaining queue is untouched -/

theorem frameDrain_remaining_frame (tA : Nat → Bool) :
    ∀ (q : List Nat) (h : Heap) (i : Nat), q.Nodup →
      ∀ x ∈ (frameDrain tA h q i).2, (frameDrain tA h q i).1 x = h x := by
  intro q
  induction q with
  | nil => intro h i _ x hx; exact absurd hx (List.not_mem_nil x)
  | cons id rest ih =>
    intro h i hnd x hx
    by_cases hc : tA i = true
    · rw [frameDrain, if_pos hc] at hx ⊢
      have hxr : x ∈ rest := by
        obtain ⟨k, _, hdrop, _, _, _⟩ := frameDrain_spec tA rest (markCompleted h id) (i + 1)
        rw [hdrop] at hx
        exact List.mem_of_mem_drop hx
      have hxid : x ≠ id := fun he => (List.nodup_cons.mp hnd).1 (he ▸ hxr)
      rw [ih (markCompleted h id) (i + 1) (List.nodup_cons.mp hnd).2 x hx,
        markCompleted_other h id x hxid]
    · rw [frameDrain, if_neg hc]

/-! ### Preservation of the scheduler invariant -/

theorem inv_of_fields (s s' : WQState) (hh : s'.heap = s.heap)
    (hw : s'.workItems = s.workItems) (hq : s'.queue = s.queue) (h : Inv s) : Inv s' := by
  unfold Inv at h ⊢
  rw [hh, hw, hq]
  exact h

theorem inv_pause (s : WQState) (h : Inv s) : Inv (pause s) := by
  by_cases hp : s.paused
  · rw [pause, if_pos hp]; exact h
  · rw [pause, if_neg hp]; exact inv_of_fields s _ rfl rfl rfl h

theorem inv_resume (s : WQState) (h : Inv s) : Inv (resume s) := by
  by_cases hp : s.paused
  · rw [resume, if_pos hp]; exact inv_of_fields s _ rfl rfl rfl h
  · rw [resume, if_neg hp]; exact h

theorem inv_purgePool (s : WQState) (h : Inv s) : Inv (purgePool s) :=
  inv_of_fields s (purgePool s) rfl rfl rfl h

theorem inv_addWorkItem (s : WQState) (id : Nat) (s' : WQState) (hInv : Inv s)
    (hs : addWorkItem s (some id) = some s') : Inv s' := by
  obtain ⟨hnl, hnq, hql, hsort, hqnc, hlc⟩ := hInv
  by_cases hdup : s.workItems.contains id
  · rw [addWorkItem, if_pos hdup] at hs
    exact absurd hs (by simp)
  · rw [addWorkItem, if_neg hdup] at hs
    injection hs with hs
    subst hs
    have hid : id ∉ s.workItems := by simpa using hdup
    have hidq : id ∉ s.queue := fun hq => hid (hql id hq)
    unfold Inv
    dsimp only
    refine ⟨?_, ?_, ?_, ?_, ?_, ?_⟩
    · simp [List.nodup_append, hnl, hid]
    · exact insertByPriority_nodup _ id s.queue hnq hidq
    · intro x hx
      rcases (mem_insertByPriority _ id x s.queue).mp hx with hxe | hxq
      · simp [hxe]
      · exact List.mem_append_left _ (hql x hxq)
    · refine insertByPriority_sorted _ id s.queue ?_
      exact sorted_congr s.heap _ s.queue
        (fun y _ => setCompleted_priority s.heap id y false) hsort
    · intro x hx
      rcases (mem_insertByPriority _ id x s.queue).mp hx with hxe | hxq
      · subst hxe
        rw [setCompleted_same]
      · have hxid : x ≠ id := fun he => hidq (he ▸ hxq)
        rw [setCompleted_other s.heap id x false hxid]
        exact hqnc x hxq
    · intro x hxw hxq
      rcases List.mem_append.mp hxw with hxl | hxr
      · have hxq0 : x ∉ s.queue := fun hq =>
          hxq ((mem_insertByPriority _ id x s.queue).mpr (Or.inr hq))
        have hxid : x ≠ id := fun he => hid (he ▸ hxl)
        rw [setCompleted_other s.heap id x false hxid]
        exact hlc x hxl hxq0
      · have hxe : x = id := by simpa using hxr
        exact absurd ((mem_insertByPriority _ id x s.queue).mpr (Or.inl hxe)) hxq

theorem inv_removeOne (s : WQState) (id : Nat) (hInv : Inv s) : Inv (removeOne s id).2 := by
  obtain ⟨hnl, hnq, hql, hsort, hqnc, hlc⟩ := hInv
  by_cases hc : (s.queue.contains id && s.workItems.contains id) = true
  · rw [removeOne, if_pos hc]
    unfold Inv
    dsimp only
    refine ⟨hnl.erase id, hnq.erase id, ?_, ?_, ?_, ?_⟩
    · intro x hx
      obtain ⟨hxid, hxq⟩ := hnq.mem_erase_iff.mp hx
      exact (List.mem_erase_of_ne hxid).mpr (hql x hxq)
    · refine sorted_congr s.heap _ _ ?_
        (List.Pairwise.sublist (List.erase_sublist id s.queue) hsort)
      intro x hx
      rw [returnToPool_heap_other s.heap s.poolItems id x (hnq.mem_erase_iff.mp hx).1]
    · intro x hx
      rw [returnToPool_heap_other s.heap s.poolItems id x (hnq.mem_erase_iff.mp hx).1]
      exact hqnc x (hnq.mem_erase_iff.mp hx).2
    · intro x hxw hxq
      obtain ⟨hxid, hxl⟩ := hnl.mem_erase_iff.mp hxw
      have hxq0 : x ∉ s.queue := fun hq => hxq ((List.mem_erase_of_ne hxid).mpr hq)
      rw [returnToPool_heap_other s.heap s.poolItems id x hxid]
      exact hlc x hxl hxq0
  · rw [removeOne, if_neg hc]
    exact ⟨hnl, hnq, hql, hsort, hqnc, hlc⟩

theorem inv_removeWorkItems (l : List Nat) :
    ∀ (s : WQState), Inv s → Inv (removeWorkItems s l).2 := by
  induction l with
  | nil => intro s h; exact h
  | cons id rest ih =>
    intro s h
    have := ih (removeOne s id).2 (inv_removeOne s id h)
    simpa [removeWorkItems] using this

theorem inv_workerStep (s : WQState) (hInv : Inv s) : Inv (workerStep s) := by
  obtain ⟨hnl, hnq, hql, hsort, hqnc, hlc⟩ := hInv
  by_cases hp : s.paused
  · rw [workerStep, if_pos hp]
    exact ⟨hnl, hnq, hql, hsort, hqnc, hlc⟩
  · rw [workerStep, if_neg hp]
    cases hq : s.queue with
    | nil => exact ⟨hnl, hnq, hql, hsort, hqnc, hlc⟩
    | cons id rest =>
      rw [hq] at hnq hql hsort hqnc
      unfold Inv
      dsimp only
      refine ⟨hnl, (List.nodup_cons.mp hnq).2, ?_, ?_, ?_, ?_⟩
      · intro x hx
        exact hql x (List.mem_cons_of_mem id hx)
      · refine sorted_congr s.heap _ rest ?_ hsort.of_cons
        intro x hx
        rw [markCompleted_priority]
      · intro x hx
        have hxid : x ≠ id := fun he => (List.nodup_cons.mp hnq).1 (he ▸ hx)
        rw [markCompleted_other s.heap id x hxid]
        exact hqnc x (List.mem_cons_of_mem id hx)
      · intro x hxw hxr
        by_cases hxid : x = id
        · subst hxid
          exact markCompleted_completed_same s.heap x
        · rw [markCompleted_other s.heap id x hxid]
          refine hlc x hxw ?_
          intro hxq
          rw [hq] at hxq
          rcases List.mem_cons.mp hxq with he | hr
          · exact hxid he
          · exact hxr hr

theorem inv_drainState (s : WQState) (p : Nat) (hInv : Inv s) :
    Inv { s with heap := (drainAtLeast p s.heap s.queue).1,
                 queue := (drainAtLeast p s.heap s.queue).2 } := by
  obtain ⟨hnl, hnq, hql, hsort, hqnc, hlc⟩ := hInv
  obtain ⟨k, hk, hdrop⟩ := drainAtLeast_suffix p s.queue s.heap
  have hsortP : List.Pairwise (prioGE s.heap) s.queue := hsort
  unfold Inv
  dsimp only
  refine ⟨hnl, ?_, ?_, ?_, ?_, ?_⟩
  · rw [hdrop]
    exact hnq.sublist (List.drop_sublist k s.queue)
  · intro x hx
    rw [hdrop] at hx
    exact hql x (List.mem_of_mem_drop hx)
  · refine sorted_congr s.heap _ _ ?_ ?_
    · intro x hx
      rw [drainAtLeast_priority]
    · rw [hdrop]
      exact List.Pairwise.sublist (List.drop_sublist k s.queue) hsortP
  · intro x hx
    rw [drainAtLeast_remaining_frame p s.queue s.heap hnq x hx]
    rw [hdrop] at hx
    exact hqnc x (List.mem_of_mem_drop hx)
  · intro x hxw hxq
    by_cases hxq0 : x ∈ s.queue
    · exact drainAtLeast_drained_completed p s.queue s.heap x hxq0 hxq
    · exact drainAtLeast_completed_mono p s.queue s.heap x (hlc x hxw hxq0)

theorem inv_purgeState (s : WQState) (p : Nat) (hInv : Inv s) : Inv (purgeCompleted s p).1 := by
  obtain ⟨hnl, hnq, hql, hsort, hqnc, hlc⟩ := hInv
  obtain ⟨hlive, hevs, hpool, hframe⟩ := purgeAux_spec p s.workItems s.heap s.poolItems hnl
  have hqpu : ∀ x ∈ s.queue, purgeable s.heap p x = false := by
    intro x hx
    simp [purgeable, hqnc x hx]
  unfold Inv
  refine ⟨?_, hnq, ?_, ?_, ?_, ?_⟩
  · show (purgeCompletedAux p s.heap s.poolItems s.workItems).2.2.1.Nodup
    rw [hlive]
    exact hnl.filter _
  · intro x hx
    show x ∈ (purgeCompletedAux p s.heap s.poolItems s.workItems).2.2.1
    rw [hlive]
    exact List.mem_filter.mpr ⟨hql x hx, by simp [hqpu x hx]⟩
  · refine sorted_congr s.heap _ _ ?_ hsort
    intro x hx
    show ((purgeCompletedAux p s.heap s.poolItems s.workItems).1 x).priority
      = (s.heap x).priority
    rw [hframe x (fun _ => hqpu x hx)]
  · intro x hx
    show ((purgeCompletedAux p s.heap s.poolItems s.workItems).1 x).completed = false
    rw [hframe x (fun _ => hqpu x hx)]
    exact hqnc x hx
  · intro x hxw hxq
    show ((purgeCompletedAux p s.heap s.poolItems s.workItems).1 x).completed = true
    have hxw2 : x ∈ (purgeCompletedAux p s.heap s.poolItems s.workItems).2.2.1 := hxw
    rw [hlive] at hxw2
    obtain ⟨hxl, hpb⟩ := List.mem_filter.mp hxw2
    have hpf : purgeable s.heap p x = false := by simpa using hpb
    rw [hframe x (fun _ => hpf)]
    exact hlc x hxl hxq

theorem inv_frameState (s : WQState) (tA : Nat → Bool) (hInv : Inv s) :
    Inv { s with heap := (frameDrain tA s.heap s.queue 0).1,
                 queue := (frameDrain tA s.heap s.queue 0).2 } := by
  obtain ⟨hnl, hnq, hql, hsort, hqnc, hlc⟩ := hInv
  obtain ⟨k, hk, hdrop, _, _, hdone⟩ := frameDrain_spec tA s.queue s.heap 0
  have hsortP : List.Pairwise (prioGE s.heap) s.queue := hsort
  unfold Inv
  dsimp only
  refine ⟨hnl, ?_, ?_, ?_, ?_, ?_⟩
  · rw [hdrop]
    exact hnq.sublist (List.drop_sublist k s.queue)
  · intro x hx
    rw [hdrop] at hx
    exact hql x (List.mem_of_mem_drop hx)
  · refine sorted_congr s.heap _ _ ?_ ?_
    · intro x hx
      rw [frameDrain_priority]
    · rw [hdrop]
      exact List.Pairwise.sublist (List.drop_sublist k s.queue) hsortP
  · intro x hx
    rw [frameDrain_remaining_frame tA s.queue s.heap 0 hnq x hx]
    rw [hdrop] at hx
    exact hqnc x (List.mem_of_mem_drop hx)
  · intro x hxw hxq
    by_cases hxq0 : x ∈ s.queue
    · have hsplit : x ∈ s.queue.take k ++ s.queue.drop k := by
        rw [List.take_append_drop]
        exact hxq0
      rcases List.mem_append.mp hsplit with hxt | hxd
      · exact hdone x hxt
      · rw [hdrop] at hxq
        exact absurd hxd hxq
    · exact frameDrain_completed_mono tA s.queue s.heap 0 x (hlc x hxw hxq0)

theorem inv_complete (s : WQState) (p : Nat) (hInv : Inv s) : Inv (complete s p).1 := by
  have h2 := inv_purgeState _ p (inv_drainState s p hInv)
  simpa [complete] using h2

theorem inv_frame (s : WQState) (tA : Nat → Bool) (hInv : Inv s) :
    Inv (handleBeginFrame s tA).1 := by
  by_cases ht : s.numThreads = 0
  · have h2 := inv_purgeState _ 0 (inv_frameState s tA hInv)
    have h3 := inv_purgePool _ h2
    simpa [handleBeginFrame, ht] using h3
  · have h3 := inv_purgePool _ (inv_purgeState s 0 hInv)
    simpa [handleBeginFrame, ht] using h3

theorem inv_stepOp (s : WQState) (op : Op) (hInv : Inv s) : Inv (stepOp s op) := by
  cases op with
  | pauseOp => exact inv_pause s hInv
  | resumeOp => exact inv_resume s hInv
  | addOp id =>
    cases hs : addWorkItem s (some id) with
    | none => simpa [stepOp, hs] using hInv
    | some s' =>
      have := inv_addWorkItem s id s' hInv hs
      simpa [stepOp, hs] using this
  | removeOp id => exact inv_removeOne s id hInv
  | removeManyOp l => exact inv_removeWorkItems l s hInv
  | workerOp => exact inv_workerStep s hInv
  | completeOp p => exact inv_complete s p hInv
  | purgeOp p => exact inv_purgeState s p hInv
  | purgePoolOp => exact inv_purgePool s hInv
  | frameOp tA => exact inv_frame s tA hInv

/-! ### Further drain / queue lemmas -/

theorem drainAtLeast_low_stays (p : Nat) :
    ∀ (q : List Nat) (h : Heap) (x : Nat), x ∈ q → (h x).priority < p →
      x ∈ (drainAtLeast p h q).2 := by
  intro q
  induction q with
  | nil => intro h x hx _; exact absurd hx (List.not_mem_nil x)
  | cons id rest ih =>
    intro h x hx hlow
    by_cases hc : p ≤ (h id).priority
    · rw [drainAtLeast, if_pos hc]
      rcases List.mem_cons.mp hx with he | hr
      · subst he; omega
      · exact ih (markCompleted h id) x hr (by rwa [markCompleted_priority])
    · rw [drainAtLeast, if_neg hc]
      exact hx

theorem sorted_head_max (h : Heap) (q : List Nat) (hs : List.Sorted (prioGE h) q) :
    ∀ x ∈ q, (h x).priority ≤ (h q.headI).priority := by
  cases q with
  | nil => intro x hx; exact absurd hx (List.not_mem_nil x)
  | cons a t =>
    intro x hx
    rcases List.mem_cons.mp hx with he | ht
    · subst he; exact Nat.le_refl _
    · exact List.rel_of_sorted_cons hs x ht

theorem isCompleted_iff (s : WQState) (p : Nat) :
    isCompleted s p = true ↔
      ∀ id ∈ s.workItems, ¬(p ≤ (s.heap id).priority ∧ (s.heap id).completed = false) := by
  rw [isCompleted, List.all_eq_true]
  refine forall_congr' fun id => imp_congr_right fun _ => ?_
  by_cases hc : (s.heap id).completed <;> by_cases hp2 : p ≤ (s.heap id).priority <;>
    simp [hc, hp2]

/-! ### Concrete example states -/

/-- Work items with priorities 5, 1, 5, 3 for identities 0-3 (priority 0 for
any other identity), as in the spec's §8 ordering example. -/
def exHeap : Heap := fun i =>
  { startPtr := 0, endPtr := 0, auxPtr := 0, workFunction := 1,
    priority := if i = 0 then 5 else if i = 1 then 1 else if i = 2 then 5 else
      if i = 3 then 3 else 0,
    sendEvent := false, completed := false, pooled := true }

/-- An idle scheduler with no worker threads over `exHeap`. -/
def exState : WQState :=
  { heap := exHeap, workItems := [], queue := [], poolItems := [],
    paused := false, numThreads := 0, lastSize := 0, tolerance := 10, nextId := 4 }

theorem exState_inv : Inv exState :=
  ⟨List.nodup_nil, List.nodup_nil,
   fun id hid => absurd hid (List.not_mem_nil id),
   List.sorted_nil,
   fun id hid => absurd hid (List.not_mem_nil id),
   fun id hid => absurd hid (List.not_mem_nil id)⟩

/-! ### Claim C2 — the completion barrier -/

/-- C2: after `Complete(p)` returns (modelled by the deterministic
no-worker-thread branch; with workers the busy-wait at lines 282-284 enforces
the same `IsCompleted` postcondition before the purge), `IsCompleted(p)` is
true and no live item with priority ≥ p has `completed == false`; queued
items with priority < p remain pending in both the queue and the live list;
and `IsCompleted(p)` itself returns true iff no item in the live list has
priority ≥ p and `completed == false`. -/
theorem c2_complete_barrier (s : WQState) (p : Nat) (hInv : Inv s) :
    isCompleted (complete s p).1 p = true ∧
    (∀ id ∈ (complete s p).1.workItems,
      ¬(p ≤ ((complete s p).1.heap id).priority ∧
        ((complete s p).1.heap id).completed = false)) ∧
    (isCompleted s p = true ↔
      ∀ id ∈ s.workItems, ¬(p ≤ (s.heap id).priority ∧ (s.heap id).completed = false)) ∧
    (∀ id ∈ s.queue, (s.heap id).priority < p →
      id ∈ (complete s p).1.queue ∧ id ∈ (complete s p).1.workItems ∧
      ((complete s p).1.heap id).completed = false) := by
  obtain ⟨hnl, hnq, hql, hsort, hqnc, hlc⟩ := hInv
  obtain ⟨hlive, hevs, hpool, hframe⟩ :=
    purgeAux_spec p s.workItems (drainAtLeast p s.heap s.queue).1 s.poolItems hnl
  have hdrainAll : ∀ id ∈ s.workItems,
      p ≤ (s.heap id).priority → ((drainAtLeast p s.heap s.queue).1 id).completed = true := by
    intro id hidw hp
    by_cases hidq : id ∈ s.queue
    · by_cases hrem : id ∈ (drainAtLeast p s.heap s.queue).2
      · have := drainAtLeast_remaining_low p s.queue s.heap hsort id hrem
        omega
      · exact drainAtLeast_drained_completed p s.queue s.heap id hidq hrem
    · exact drainAtLeast_completed_mono p s.queue s.heap id (hlc id hidw hidq)
  have hPheap : ∀ id, purgeable (drainAtLeast p s.heap s.queue).1 p id = false →
      (complete s p).1.heap id = (drainAtLeast p s.heap s.queue).1 id := by
    intro id hpf
    show (purgeCompletedAux p (drainAtLeast p s.heap s.queue).1 s.poolItems s.workItems).1 id
      = (drainAtLeast p s.heap s.queue).1 id
    exact hframe id (fun _ => hpf)
  have hPlive : (complete s p).1.workItems =
      s.workItems.filter (fun id => !purgeable (drainAtLeast p s.heap s.queue).1 p id) := by
    show (purgeCompletedAux p (drainAtLeast p s.heap s.queue).1 s.poolItems s.workItems).2.2.1
      = _
    exact hlive
  have hPqueue : (complete s p).1.queue = (drainAtLeast p s.heap s.queue).2 := rfl
  have hconj2 : ∀ id ∈ (complete s p).1.workItems,
      ¬(p ≤ ((complete s p).1.heap id).priority ∧
        ((complete s p).1.heap id).completed = false) := by
    intro id hid hcontra
    rw [hPlive] at hid
    obtain ⟨hidw, hkept⟩ := List.mem_filter.mp hid
    have hpf : purgeable (drainAtLeast p s.heap s.queue).1 p id = false := by
      simpa using hkept
    obtain ⟨hp2, hcf⟩ := hcontra
    rw [hPheap id hpf] at hp2 hcf
    rw [drainAtLeast_priority] at hp2
    have hcmp := hdrainAll id hidw hp2
    simp [hcmp] at hcf
  refine ⟨(isCompleted_iff (complete s p).1 p).mpr hconj2, hconj2,
    isCompleted_iff s p, ?_⟩
  intro id hidq hlow
  have hrem : id ∈ (drainAtLeast p s.heap s.queue).2 :=
    drainAtLeast_low_stays p s.queue s.heap id hidq hlow
  have hfr := drainAtLeast_remaining_frame p s.queue s.heap hnq id hrem
  have hcf : ((drainAtLeast p s.heap s.queue).1 id).completed = false := by
    rw [hfr]
    exact hqnc id hidq
  have hpf : purgeable (drainAtLeast p s.heap s.queue).1 p id = false := by
    simp [purgeable, hcf]
  refine ⟨?_, ?_, ?_⟩
  · rw [hPqueue]
    exact hrem
  · rw [hPlive]
    exact List.mem_filter.mpr ⟨hql id hidq, by simp [hpf]⟩
  · rw [hPheap id hpf]
    exact hcf

/-- C2 witness: `Complete(3)` on a scheduler holding items of priorities 5
and 1 satisfies the barrier postcondition. -/
theorem c2_witness :
    Inv (stepOps exState [Op.addOp 0, Op.addOp 1]) ∧
    isCompleted (complete (stepOps exState [Op.addOp 0, Op.addOp 1]) 3).1 3 = true := by
  have hInv : Inv (stepOps exState [Op.addOp 0, Op.addOp 1]) :=
    inv_stepOp _ (Op.addOp 1) (inv_stepOp _ (Op.addOp 0) exState_inv)
  exact ⟨hInv, (c2_complete_barrier (stepOps exState [Op.addOp 0, Op.addOp 1]) 3 hInv).1⟩

/-! ### Claim C7 — the combined invariant is preserved by every operation -/

/-- C7: every scheduler operation — AddWorkItem, RemoveWorkItem,
RemoveWorkItems, a worker or barrier dequeue step, Complete, PurgeCompleted,
PurgePool, Pause/Resume and the frame hook — preserves the combined state
invariant: the queue is sorted in non-increasing priority order (hence the
front entry has maximal priority among queued items), every queued item also
appears in the live list, and every queued item has `completed == false`.
(`Inv` additionally carries the no-duplicate facts and, in the sequential
model, that live items no longer queued are completed; these are needed for
the listed clauses to be inductive.) -/
theorem c7_invariant_preserved (s : WQState) (op : Op) (hInv : Inv s) :
    Inv (stepOp s op) ∧
    ∀ x ∈ (stepOp s op).queue,
      ((stepOp s op).heap x).priority ≤
        ((stepOp s op).heap (stepOp s op).queue.headI).priority := by
  have h := inv_stepOp s op hInv
  exact ⟨h, sorted_head_max (stepOp s op).heap (stepOp s op).queue h.2.2.2.1⟩

/-- C7 witness: the invariant holds for the empty scheduler and is preserved
by a concrete submission. -/
theorem c7_witness :
    Inv (stepOp exState (Op.addOp 0)) ∧
    ∀ x ∈ (stepOp exState (Op.addOp 0)).queue,
      ((stepOp exState (Op.addOp 0)).heap x).priority ≤
        ((stepOp exState (Op.addOp 0)).heap (stepOp exState (Op.addOp 0)).queue.headI).priority :=
  c7_invariant_preserved exState (Op.addOp 0) exState_inv

/-! ### Claim C1 — the insertion tie-break -/

/-- C1 counterexample: submitting items 0, 1, 2, 3 with priorities
[5, 1, 5, 3] in that order leaves the queue (= the drain/execution order) as
2, 0, 3, 1: the two priority-5 items are served in REVERSE submission order,
because the insertion scan at WorkQueue.cpp line 164 inserts before the first
entry whose priority is `<=` the new item's, not strictly lower.  The claimed
FIFO tie-break would give the order 0, 2, 3, 1. -/
theorem c1_counterexample :
    (exHeap 0).priority = 5 ∧ (exHeap 1).priority = 1 ∧
    (exHeap 2).priority = 5 ∧ (exHeap 3).priority = 3 ∧
    (stepOps exState [Op.addOp 0, Op.addOp 1, Op.addOp 2, Op.addOp 3]).queue
      = [2, 0, 3, 1] ∧
    [2, 0, 3, 1] ≠ [0, 2, 3, 1] := by
  refine ⟨rfl, rfl, rfl, rfl, by decide, by decide⟩

/-- C1 (corrected): AddWorkItem inserts the new item at the position
preceding the first existing entry whose priority is less than OR EQUAL TO
the new item's, so equal-priority items are served in reverse submission
order (LIFO tie-break) while strictly-higher-priority existing entries are
served first; draining items submitted with priorities [5, 1, 5, 3] executes
them in priority order 5, 5, 3, 1 with the two priority-5 items in reverse
submission order (queue 2, 0, 3, 1). -/
theorem c1_insertion_discipline :
    (∀ (h : Heap) (id : Nat) (q : List Nat),
      insertByPriority h id q =
        (q.takeWhile fun x => !decide ((h x).priority ≤ (h id).priority)) ++
        id :: (q.dropWhile fun x => !decide ((h x).priority ≤ (h id).priority))) ∧
    ((stepOps exState [Op.addOp 0, Op.addOp 1, Op.addOp 2, Op.addOp 3]).queue.map
      (fun i => (exHeap i).priority)) = [5, 5, 3, 1] ∧
    (stepOps exState [Op.addOp 0, Op.addOp 1, Op.addOp 2, Op.addOp 3]).queue
      = [2, 0, 3, 1] := by
  refine ⟨?_, by decide, by decide⟩
  intro h id q
  induction q with
  | nil => rfl
  | cons x xs ih =>
    by_cases hc : (h x).priority ≤ (h id).priority
    · simp [insertByPriority, List.takeWhile_cons, List.dropWhile_cons, hc]
    · simp [insertByPriority, List.takeWhile_cons, List.dropWhile_cons, hc, ih]

/-! ### Claim C3 — the pause gate -/

/-- A paused scheduler with one worker thread over `exHeap`. -/
def pausedState : WQState :=
  { heap := exHeap, workItems := [], queue := [], poolItems := [],
    paused := true, numThreads := 1, lastSize := 0, tolerance := 10, nextId := 4 }

/-- C3 counterexample: from a paused scheduler with a worker thread, the
operation sequence [AddWorkItem 0, worker step] — which contains no Resume —
drives item 0 to completion: `AddWorkItem` itself unlocks the queue mutex and
clears `paused_` whenever worker threads exist (WorkQueue.cpp lines 176-180),
so a submitted item can complete before any `Resume` call, refuting the
claim's clause that submitted items can complete only after Resume. -/
theorem c3_counterexample :
    pausedState.paused = true ∧
    (pausedState.heap 0).completed = false ∧
    ([Op.addOp 0, Op.workerOp].all fun op => !isResumeOp op) = true ∧
    ((stepOps pausedState [Op.addOp 0, Op.workerOp]).heap 0).completed = true := by
  refine ⟨rfl, rfl, rfl, by decide⟩

/-- C3 (corrected): while the scheduler is paused the pause mutex is held, so
a worker step dequeues nothing and leaves the whole state (queue and all
completed flags included) unchanged; however `AddWorkItem` itself resumes the
scheduler when worker threads exist, so items submitted while paused can
begin completing as soon as `AddWorkItem` returns, with no explicit `Resume`
call. -/
theorem c3_pause_gate (s : WQState) (hp : s.paused = true) :
    workerStep s = s ∧
    (∀ (id : Nat) (s' : WQState), s.numThreads ≠ 0 →
      addWorkItem s (some id) = some s' → s'.paused = false) := by
  constructor
  · rw [workerStep, if_pos hp]
  · intro id s' ht hs
    by_cases hdup : s.workItems.contains id
    · rw [addWorkItem, if_pos hdup] at hs
      exact absurd hs (by simp)
    · rw [addWorkItem, if_neg hdup] at hs
      injection hs with hs
      subst hs
      simp [ht]

/-- C3 witness: the paused example state is inert under a worker step, and a
submission to it clears the pause flag. -/
theorem c3_witness :
    pausedState.paused = true ∧
    workerStep pausedState = pausedState ∧
    ((stepOps pausedState [Op.addOp 0]).paused = false) := by
  refine ⟨rfl, (c3_pause_gate pausedState rfl).1, ?_⟩
  exact (c3_pause_gate pausedState rfl).2 0 (stepOps pausedState [Op.addOp 0])
    (by decide) rfl

/-! ### Claim C4 — pool reset discipline -/

/-- A pooled, completed work item with every payload field populated. -/
def staleItem : WorkItem :=
  { startPtr := 3, endPtr := 4, auxPtr := 5, workFunction := 6,
    priority := 7, sendEvent := true, completed := true, pooled := true }

/-- A heap carrying `staleItem` at identity 0 and a priority-9 item at 1. -/
def staleHeap : Heap := fun i => if i = 0 then staleItem else { staleItem with priority := 9 }

/-- A scheduler whose live list holds the completed stale item. -/
def c4State : WQState :=
  { heap := staleHeap, workItems := [0], queue := [], poolItems := [],
    paused := false, numThreads := 0, lastSize := 0, tolerance := 10, nextId := 1 }

/-- C4 counterexample: `ReturnToPool` resets the priority to
`M_MAX_UNSIGNED = 4294967295` (WorkQueue.cpp line 403), not to the
lowest-priority value 0; and under the scheduler's higher-value-wins order
the reset item would be inserted AHEAD of a priority-9 item, i.e. the
sentinel is the highest priority, not the lowest. -/
theorem c4_counterexample :
    ((returnToPool staleHeap [] 0).1 0).priority = 4294967295 ∧
    ((returnToPool staleHeap [] 0).1 0).priority ≠ 0 ∧
    ((returnToPool staleHeap [] 0).1 1).priority = 9 ∧
    insertByPriority (returnToPool staleHeap [] 0).1 0 [1] = [0, 1] := by
  refine ⟨by decide, by decide, by decide, by decide⟩

/-- C4 (corrected): ReturnToPool appends to the free list only items with
`pooled == true`, and before appending resets every field — the three
context pointers and the entry point cleared, `sendCompletionEvent` and
`completed` cleared, and the priority set to `M_MAX_UNSIGNED` (the
highest-priority sentinel under higher-value-wins ordering, not the lowest);
non-pooled items are simply dropped.  After a pooled completed item is
purged from a scheduler with an empty pool, `GetFreeItem` returns that very
instance with all fields so reset — no stale context or priority leaks. -/
theorem c4_pool_reset (h : Heap) (pool : List Nat) (id : Nat) (s : WQState)
    (hpooled : (h id).pooled = true)
    (hpool0 : s.poolItems = []) (hlive : s.workItems = [id])
    (hc : (s.heap id).completed = true) (hsp : (s.heap id).pooled = true) :
    returnToPool h pool id = (hupdate h id (resetItem (h id)), pool ++ [id]) ∧
    (∀ (h2 : Heap) (pool2 : List Nat) (id2 : Nat), (h2 id2).pooled = false →
      returnToPool h2 pool2 id2 = (h2, pool2)) ∧
    ((resetItem (h id)).startPtr = 0 ∧ (resetItem (h id)).endPtr = 0 ∧
      (resetItem (h id)).auxPtr = 0 ∧ (resetItem (h id)).workFunction = 0 ∧
      (resetItem (h id)).priority = M_MAX_UNSIGNED ∧
      (resetItem (h id)).sendEvent = false ∧ (resetItem (h id)).completed = false ∧
      (resetItem (h id)).pooled = true) ∧
    ((getFreeItem (purgeCompleted s 0).1).1 = id ∧
      (purgeCompleted s 0).1.heap id = resetItem (s.heap id)) := by
  have haux : purgeCompletedAux 0 s.heap s.poolItems s.workItems
      = (hupdate s.heap id (resetItem (s.heap id)), [id], [],
         if (s.heap id).sendEvent = true then [id] else []) := by
    have hpu : purgeable s.heap 0 id = true := by simp [purgeable, hc]
    rw [hlive, hpool0]
    simp [purgeCompletedAux, hpu, returnToPool, hsp, hc]
  refine ⟨returnToPool_pooled h pool id hpooled,
    fun h2 pool2 id2 hnp => returnToPool_not_pooled h2 pool2 id2 hnp,
    ⟨rfl, rfl, rfl, rfl, rfl, rfl, rfl, hpooled ▸ rfl⟩, ?_, ?_⟩
  · have hP : (purgeCompleted s 0).1.poolItems = [id] := by
      show (purgeCompletedAux 0 s.heap s.poolItems s.workItems).2.1 = [id]
      rw [haux]
    simp [getFreeItem, hP]
  · show (purgeCompletedAux 0 s.heap s.poolItems s.workItems).1 id = resetItem (s.heap id)
    rw [haux]
    exact hupdate_same s.heap id (resetItem (s.heap id))

/-- C4 witness: the stale completed pooled item round-trips through purge and
`GetFreeItem` with all fields reset. -/
theorem c4_witness :
    (staleHeap 0).pooled = true ∧
    (getFreeItem (purgeCompleted c4State 0).1).1 = 0 ∧
    (purgeCompleted c4State 0).1.heap 0 = resetItem (c4State.heap 0) := by
  refine ⟨by decide, ?_, ?_⟩
  · exact (c4_pool_reset staleHeap [] 0 c4State (by decide) rfl rfl (by decide)
      (by decide)).2.2.2.1
  · exact (c4_pool_reset staleHeap [] 0 c4State (by decide) rfl rfl (by decide)
      (by decide)).2.2.2.2

/-! ### Claim C5 — PurgeCompleted purges exactly the completed items at or
above the threshold -/

/-- C5: `PurgeCompleted(p)` removes from the live list exactly the items with
`completed == true` and priority ≥ p (that is `purgeable`), keeping every
other live item in its relative position with its record untouched; it emits
a completion notification exactly for the removed items whose
`sendCompletionEvent` flag is set, in live-list order; it appends to the pool
exactly the removed pooled items; and it leaves the queue alone. -/
theorem c5_purge_exact (s : WQState) (p : Nat) (hnl : s.workItems.Nodup) :
    (purgeCompleted s p).1.workItems =
      s.workItems.filter (fun id => !purgeable s.heap p id) ∧
    (purgeCompleted s p).2 =
      s.workItems.filter (fun id => purgeable s.heap p id && (s.heap id).sendEvent) ∧
    (purgeCompleted s p).1.poolItems =
      s.poolItems ++ s.workItems.filter (fun id => purgeable s.heap p id && (s.heap id).pooled) ∧
    (∀ id ∈ (purgeCompleted s p).1.workItems, (purgeCompleted s p).1.heap id = s.heap id) ∧
    (purgeCompleted s p).1.queue = s.queue := by
  obtain ⟨hlive, hevs, hpool, hframe⟩ := purgeAux_spec p s.workItems s.heap s.poolItems hnl
  refine ⟨hlive, hevs, hpool, ?_, rfl⟩
  intro id hid
  have hid2 : id ∈ (purgeCompletedAux p s.heap s.poolItems s.workItems).2.2.1 := hid
  rw [hlive] at hid2
  obtain ⟨hidw, hkept⟩ := List.mem_filter.mp hid2
  have hpf : purgeable s.heap p id = false := by simpa using hkept
  exact hframe id (fun _ => hpf)

/-- A scheduler with three live items: 0 completed at priority 5 with the
event flag set, 1 pending at priority 1, 2 completed at priority 0. -/
def c5State : WQState :=
  { heap := fun i =>
      { startPtr := 0, endPtr := 0, auxPtr := 0, workFunction := 1,
        priority := if i = 0 then 5 else if i = 1 then 1 else 0,
        sendEvent := i = 0, completed := i ≠ 1, pooled := true },
    workItems := [0, 1, 2], queue := [1], poolItems := [],
    paused := false, numThreads := 0, lastSize := 0, tolerance := 10, nextId := 3 }

/-- C5 witness: purging at threshold 1 removes exactly item 0 (completed,
priority 5 ≥ 1), emits its event, pools it, and keeps items 1 and 2. -/
theorem c5_witness :
    c5State.workItems.Nodup ∧
    (purgeCompleted c5State 1).1.workItems =
      c5State.workItems.filter (fun id => !purgeable c5State.heap 1 id) ∧
    (purgeCompleted c5State 1).2 =
      c5State.workItems.filter
        (fun id => purgeable c5State.heap 1 id && (c5State.heap id).sendEvent) ∧
    c5State.workItems.filter (fun id => !purgeable c5State.heap 1 id) = [1, 2] ∧
    c5State.workItems.filter
      (fun id => purgeable c5State.heap 1 id && (c5State.heap id).sendEvent) = [0] := by
  refine ⟨by decide, (c5_purge_exact c5State 1 (by decide)).1,
    (c5_purge_exact c5State 1 (by decide)).2.1, by decide, by decide⟩

/-! ### Claim C6 — best-effort removal -/

theorem erase_contains_of_ne (q : List Nat) (id x : Nat) (hx : x ≠ id) :
    (q.erase id).contains x = q.contains x := by
  by_cases hq : x ∈ q
  · have h1 : x ∈ q.erase id := (List.mem_erase_of_ne hx).mpr hq
    simp [hq, h1]
  · have h1 : x ∉ q.erase id := fun hc =>
      hq (List.Sublist.subset (List.erase_sublist id q) hc)
    simp [hq, h1]

theorem removeOne_mem (s : WQState) (id : Nat)
    (hql : ∀ x ∈ s.queue, x ∈ s.workItems) (hid : id ∈ s.queue) :
    removeOne s id =
      (true, { s with queue := s.queue.erase id,
                      workItems := s.workItems.erase id,
                      heap := (returnToPool s.heap s.poolItems id).1,
                      poolItems := (returnToPool s.heap s.poolItems id).2 }) := by
  have hcond : (s.queue.contains id && s.workItems.contains id) = true := by
    simp [hid, hql id hid]
  rw [removeOne, if_pos hcond]

theorem removeOne_not_mem (s : WQState) (id : Nat) (hid : id ∉ s.queue) :
    removeOne s id = (false, s) := by
  have hcond : (s.queue.contains id && s.workItems.contains id) = false := by
    simp [hid]
  have hneg : ¬((s.queue.contains id && s.workItems.contains id) = true) := by
    rw [hcond]
    exact Bool.false_ne_true
  rw [removeOne, if_neg hneg]

theorem removeWorkItems_count :
    ∀ (l : List Nat) (s : WQState), (∀ x ∈ s.queue, x ∈ s.workItems) →
      s.queue.Nodup → l.Nodup →
      (removeWorkItems s l).1 = (l.filter (fun x => s.queue.contains x)).length := by
  intro l
  induction l with
  | nil => intro s _ _ _; rfl
  | cons id rest ih =>
    intro s hql hnq hl
    have hidr : id ∉ rest := (List.nodup_cons.mp hl).1
    have hrest : rest.Nodup := (List.nodup_cons.mp hl).2
    by_cases hid : id ∈ s.queue
    · rw [removeWorkItems]
      rw [removeOne_mem s id hql hid]
      dsimp only
      rw [if_pos rfl]
      have hql' : ∀ x ∈ s.queue.erase id, x ∈ s.workItems.erase id := by
        intro x hx
        obtain ⟨hxid, hxq⟩ := hnq.mem_erase_iff.mp hx
        exact (List.mem_erase_of_ne hxid).mpr (hql x hxq)
      have ihr := ih { s with queue := s.queue.erase id,
                              workItems := s.workItems.erase id,
                              heap := (returnToPool s.heap s.poolItems id).1,
                              poolItems := (returnToPool s.heap s.poolItems id).2 }
        hql' (hnq.erase id) hrest
      rw [ihr]
      have hfc : rest.filter (fun x => (s.queue.erase id).contains x)
          = rest.filter (fun x => s.queue.contains x) := by
        refine List.filter_congr fun x hx => ?_
        exact erase_contains_of_ne s.queue id x (fun he => hidr (he ▸ hx))
      rw [hfc, List.filter_cons]
      simp [hid]
    · rw [removeWorkItems]
      rw [removeOne_not_mem s id hid]
      dsimp only
      rw [if_neg (by simp)]
      rw [ih s hql hnq hrest, List.filter_cons]
      simp [hid]

/-- C6: `RemoveWorkItem(item)` returns true iff the item is still in the
priority queue (given the structural fact that queued items are live, which
`Inv` maintains); on success the item is erased from both the queue and the
live list and handed to `ReturnToPool`; on failure — including a null item —
the state is unchanged; and `RemoveWorkItems(list)` returns exactly the
number of input items that were still queued. -/
theorem c6_remove_semantics (s : WQState) (id : Nat) (l : List Nat)
    (hql : ∀ x ∈ s.queue, x ∈ s.workItems) (hnq : s.queue.Nodup) (hl : l.Nodup) :
    ((removeWorkItem s (some id)).1 = true ↔ id ∈ s.queue) ∧
    (id ∈ s.queue →
      (removeWorkItem s (some id)).2.queue = s.queue.erase id ∧
      (removeWorkItem s (some id)).2.workItems = s.workItems.erase id ∧
      (removeWorkItem s (some id)).2.heap = (returnToPool s.heap s.poolItems id).1 ∧
      (removeWorkItem s (some id)).2.poolItems = (returnToPool s.heap s.poolItems id).2) ∧
    (id ∉ s.queue →
      (removeWorkItem s (some id)).1 = false ∧ (removeWorkItem s (some id)).2 = s) ∧
    ((removeWorkItem s none).1 = false ∧ (removeWorkItem s none).2 = s) ∧
    (removeWorkItems s l).1 = (l.filter (fun x => s.queue.contains x)).length := by
  refine ⟨?_, ?_, ?_, ⟨rfl, rfl⟩, removeWorkItems_count l s hql hnq hl⟩
  · constructor
    · intro htrue
      by_contra hid
      rw [show removeWorkItem s (some id) = removeOne s id from rfl,
        removeOne_not_mem s id hid] at htrue
      exact Bool.false_ne_true htrue
    · intro hid
      rw [show removeWorkItem s (some id) = removeOne s id from rfl,
        removeOne_mem s id hql hid]
  · intro hid
    rw [show removeWorkItem s (some id) = removeOne s id from rfl,
      removeOne_mem s id hql hid]
    exact ⟨rfl, rfl, rfl, rfl⟩
  · intro hid
    rw [show removeWorkItem s (some id) = removeOne s id from rfl,
      removeOne_not_mem s id hid]
    exact ⟨rfl, rfl⟩

/-- A scheduler with live items 0 and 1, both queued. -/
def c6State : WQState :=
  { heap := exHeap, workItems := [0, 1], queue := [0, 1], poolItems := [],
    paused := false, numThreads := 0, lastSize := 0, tolerance := 10, nextId := 2 }

/-- C6 witness: removing queued item 0 succeeds; `RemoveWorkItems [0, 5]`
removes exactly one item (5 was never queued). -/
theorem c6_witness :
    (∀ x ∈ c6State.queue, x ∈ c6State.workItems) ∧ c6State.queue.Nodup ∧
    [0, 5].Nodup ∧
    ((removeWorkItem c6State (some 0)).1 = true ↔ 0 ∈ c6State.queue) ∧
    (removeWorkItems c6State [0, 5]).1 =
      ([0, 5].filter (fun x => c6State.queue.contains x)).length ∧
    ([0, 5].filter (fun x => c6State.queue.contains x)).length = 1 := by
  refine ⟨by decide, by decide, by decide,
    (c6_remove_semantics c6State 0 [0, 5] (by decide) (by decide) (by decide)).1,
    (c6_remove_semantics c6State 0 [0, 5] (by decide) (by decide) (by decide)).2.2.2.2,
    by decide⟩

/-! ### Claim C8 — duplicate submissions are rejected -/

/-- C8: `AddWorkItem` of an item instance already present in the live list
trips the assertion at WorkQueue.cpp line 140 (modelled as `none`), and a
successful `AddWorkItem` on a duplicate-free state keeps both the live list
and the queue duplicate-free — no item instance ever appears twice in
either. -/
theorem c8_no_duplicates (s : WQState) (id : Nat)
    (hnl : s.workItems.Nodup) (hnq : s.queue.Nodup)
    (hql : ∀ x ∈ s.queue, x ∈ s.workItems) :
    (id ∈ s.workItems → addWorkItem s (some id) = none) ∧
    (∀ s', addWorkItem s (some id) = some s' →
      s'.workItems.Nodup ∧ s'.queue.Nodup) := by
  constructor
  · intro hmem
    rw [addWorkItem, if_pos (by simpa using hmem)]
  · intro s' hs
    by_cases hdup : s.workItems.contains id
    · rw [addWorkItem, if_pos hdup] at hs
      exact absurd hs (by simp)
    · rw [addWorkItem, if_neg hdup] at hs
      injection hs with hs
      subst hs
      have hid : id ∉ s.workItems := by simpa using hdup
      have hidq : id ∉ s.queue := fun hq => hid (hql id hq)
      exact ⟨by simp [List.nodup_append, hnl, hid],
        insertByPriority_nodup _ id s.queue hnq hidq⟩

/-- C8 witness: resubmitting the live item 0 of `c6State` is rejected, and a
fresh submission of 2 keeps the lists duplicate-free. -/
theorem c8_witness :
    c6State.workItems.Nodup ∧ 0 ∈ c6State.workItems ∧
    addWorkItem c6State (some 0) = none ∧
    ((stepOps c6State [Op.addOp 2]).workItems.Nodup ∧
      (stepOps c6State [Op.addOp 2]).queue.Nodup) := by
  refine ⟨by decide, by decide, ?_, ?_⟩
  · exact (c8_no_duplicates c6State 0 (by decide) (by decide) (by decide)).1 (by decide)
  · exact (c8_no_duplicates c6State 2 (by decide) (by decide) (by decide)).2
      (stepOps c6State [Op.addOp 2]) rfl

/-! ### Claim C9 — pool purge hysteresis -/

theorem purgePoolLoop_spec (d t : Int) :
    ∀ (pool : List Nat) (i : Nat),
      purgePoolLoop d t pool i = if d > t then pool.drop (d.toNat - i) else pool := by
  intro pool
  induction pool with
  | nil =>
    intro i
    by_cases hdt : d > t <;> simp [purgePoolLoop, hdt]
  | cons x rest ih =>
    intro i
    by_cases hdt : d > t
    · by_cases hid : (i : Int) < d
      · have h1 : d.toNat - i = (d.toNat - (i + 1)) + 1 := by omega
        rw [purgePoolLoop, if_pos ⟨hdt, hid⟩, ih (i + 1), if_pos hdt, if_pos hdt, h1,
          List.drop_succ_cons]
      · have h0 : d.toNat - i = 0 := by omega
        rw [purgePoolLoop, if_neg (fun hc => hid hc.2), if_pos hdt, h0, List.drop_zero]
    · rw [purgePoolLoop, if_neg (fun hc => hdt hc.1), if_neg hdt]

/-- C9: `PurgePool` trims the free list only when it has shrunk by more than
the tolerance (10) since the last purge; when it trims it removes the items
from the front up to the shrink difference, it never removes more than that
difference, it otherwise leaves the free list unchanged, and it records the
size observed at entry as the reference for the next purge. -/
theorem c9_purge_pool (s : WQState) (ht : s.tolerance = 10) :
    ((s.lastSize : Int) - (s.poolItems.length : Int) ≤ 10 →
      (purgePool s).poolItems = s.poolItems) ∧
    ((s.lastSize : Int) - (s.poolItems.length : Int) > 10 →
      (purgePool s).poolItems = s.poolItems.drop (s.lastSize - s.poolItems.length)) ∧
    s.poolItems.length - (purgePool s).poolItems.length ≤ s.lastSize - s.poolItems.length ∧
    (purgePool s).lastSize = s.poolItems.length := by
  have hspec := purgePoolLoop_spec ((s.lastSize : Int) - (s.poolItems.length : Int))
    s.tolerance s.poolItems 0
  have hPp : (purgePool s).poolItems =
      purgePoolLoop ((s.lastSize : Int) - (s.poolItems.length : Int)) s.tolerance
        s.poolItems 0 := rfl
  refine ⟨?_, ?_, ?_, rfl⟩
  · intro hle
    rw [hPp, hspec, if_neg (by rw [ht]; omega)]
  · intro hgt
    have htn : ((s.lastSize : Int) - (s.poolItems.length : Int)).toNat - 0
        = s.lastSize - s.poolItems.length := by omega
    rw [hPp, hspec, if_pos (by rw [ht]; omega), htn]
  · rw [hPp, hspec]
    by_cases hdt : (s.lastSize : Int) - (s.poolItems.length : Int) > s.tolerance
    · rw [if_pos hdt]
      have := List.length_drop
        (((s.lastSize : Int) - (s.poolItems.length : Int)).toNat - 0) s.poolItems
      omega
    · rw [if_neg hdt]
      omega

/-- A scheduler whose pool shrank from 15 to 3 since the last purge. -/
def c9State : WQState :=
  { heap := exHeap, workItems := [], queue := [], poolItems := [7, 8, 9],
    paused := false, numThreads := 0, lastSize := 15, tolerance := 10, nextId := 0 }

/-- C9 witness: a shrink of 12 > 10 empties the 3-item pool (12 capped by the
pool size), and the entry size 3 becomes the new reference. -/
theorem c9_witness :
    c9State.tolerance = 10 ∧
    (purgePool c9State).poolItems = c9State.poolItems.drop (c9State.lastSize - c9State.poolItems.length) ∧
    (purgePool c9State).lastSize = c9State.poolItems.length := by
  refine ⟨rfl, ?_, (c9_purge_pool c9State rfl).2.2.2⟩
  exact (c9_purge_pool c9State rfl).2.1 (by decide)

/-! ### Claim C10 — the per-frame hook -/

/-- Repeated invocations of the frame hook, the n-th with time oracle
`oracles n`. -/
def iterateHook (oracles : Nat → Nat → Bool) : Nat → WQState → WQState
  | 0, s => s
  | n + 1, s => iterateHook (fun m => oracles (m + 1)) n (handleBeginFrame s (oracles 0)).1

theorem handleBeginFrame_numThreads (s : WQState) (tA : Nat → Bool) :
    (handleBeginFrame s tA).1.numThreads = s.numThreads := by
  by_cases ht : s.numThreads = 0 <;>
    simp [handleBeginFrame, purgePool, purgeCompleted, ht]

theorem handleBeginFrame_queue (s : WQState) (tA : Nat → Bool) (ht : s.numThreads = 0) :
    (handleBeginFrame s tA).1.queue = (frameDrain tA s.heap s.queue 0).2 := by
  simp [handleBeginFrame, purgePool, purgeCompleted, ht]

theorem handleBeginFrame_progress (s : WQState) (tA : Nat → Bool)
    (ht : s.numThreads = 0) (ha : tA 0 = true) :
    (handleBeginFrame s tA).1.queue.length + 1 ≤ s.queue.length ∨ s.queue = [] := by
  obtain ⟨k, hk, hdrop, hall, hstop, _⟩ := frameDrain_spec tA s.queue s.heap 0
  by_cases hq0 : s.queue = []
  · exact Or.inr hq0
  · left
    have hlen : 1 ≤ s.queue.length := by
      cases hqq : s.queue with
      | nil => exact absurd hqq hq0
      | cons a t => simp
    have hk1 : 1 ≤ k := by
      rcases hstop with he | ⟨hlt, hfa⟩
      · rw [he]
        exact hlen
      · by_contra h0
        have hk0 : k = 0 := by omega
        rw [hk0] at hfa
        rw [show (0 : Nat) + 0 = 0 from rfl, ha] at hfa
        simp at hfa
    have hfin : (handleBeginFrame s tA).1.queue.length = s.queue.length - k := by
      rw [handleBeginFrame_queue s tA ht, hdrop, List.length_drop]
    rw [hfin]
    omega

theorem iterateHook_empties :
    ∀ (n : Nat) (oracles : Nat → Nat → Bool) (s : WQState),
      s.numThreads = 0 → (∀ m, oracles m 0 = true) → s.queue.length ≤ n →
      (iterateHook oracles n s).queue = [] := by
  intro n
  induction n with
  | zero =>
    intro oracles s _ _ hlen
    exact List.length_eq_zero.mp (Nat.le_zero.mp hlen)
  | succ n ih =>
    intro oracles s ht hor hlen
    rw [iterateHook]
    refine ih (fun m => oracles (m + 1)) (handleBeginFrame s (oracles 0)).1 ?_ ?_ ?_
    · rw [handleBeginFrame_numThreads]
      exact ht
    · intro m
      exact hor (m + 1)
    · rcases handleBeginFrame_progress s (oracles 0) ht (hor 0) with hp | hemp
      · omega
      · rw [handleBeginFrame_queue s (oracles 0) ht, hemp]
        simp [frameDrain]

/-- A sweep at threshold 0 purges every completed live item, so afterwards no
live item is completed (used for the frame hook, which always ends with
`PurgeCompleted(0)`). -/
theorem purge0_no_completed (t : WQState) (hnl : t.workItems.Nodup) :
    ∀ id ∈ (purgeCompleted t 0).1.workItems,
      ((purgeCompleted t 0).1.heap id).completed = false := by
  intro id hid
  obtain ⟨hlive, _, _, hframe⟩ := purgeAux_spec 0 t.workItems t.heap t.poolItems hnl
  have hid2 : id ∈ (purgeCompletedAux 0 t.heap t.poolItems t.workItems).2.2.1 := hid
  rw [hlive] at hid2
  obtain ⟨hidw, hkept⟩ := List.mem_filter.mp hid2
  have hpf : purgeable t.heap 0 id = false := by
    simpa using hkept
  have hcf : (t.heap id).completed = false := by
    have h2 := hpf
    simp [purgeable, Nat.zero_le] at h2
    exact h2
  show ((purgeCompletedAux 0 t.heap t.poolItems t.workItems).1 id).completed = false
  rw [hframe id (fun _ => hpf)]
  exact hcf

/-- C10: every invocation of the frame hook — with or without worker threads
— is exactly the (with workers, skipped) calling-thread drain followed by
`PurgeCompleted(0)` and then `PurgePool()`, so in either case no completed
item remains live afterwards.  With no worker threads the drain executes
items from the front of the queue on the calling thread: the remaining queue
is a drop of the original, every executed position passed the time-budget
check, execution stops only at queue exhaustion or a failed budget check,
each executed item is marked completed, and repeated invocations whose
budget always admits at least the first item eventually empty the queue. -/
theorem c10_frame_hook (s : WQState) (tA : Nat → Bool) (oracles : Nat → Nat → Bool)
    (hnl : s.workItems.Nodup) (hor : ∀ n, oracles n 0 = true) :
    ((handleBeginFrame s tA).1 =
      purgePool (purgeCompleted
        (if s.numThreads = 0 then
          { s with heap := (frameDrain tA s.heap s.queue 0).1,
                   queue := (frameDrain tA s.heap s.queue 0).2 }
         else s) 0).1) ∧
    (∀ id ∈ (handleBeginFrame s tA).1.workItems,
      ((handleBeginFrame s tA).1.heap id).completed = false) ∧
    (s.numThreads = 0 →
      (∃ k, k ≤ s.queue.length ∧
        (frameDrain tA s.heap s.queue 0).2 = s.queue.drop k ∧
        (∀ j, j < k → tA j = true) ∧
        (k = s.queue.length ∨ (k < s.queue.length ∧ tA k = false)) ∧
        (∀ x ∈ s.queue.take k, ((frameDrain tA s.heap s.queue 0).1 x).completed = true)) ∧
      (handleBeginFrame s tA).1.queue = (frameDrain tA s.heap s.queue 0).2 ∧
      (iterateHook oracles s.queue.length s).queue = []) := by
  refine ⟨?_, ?_, ?_⟩
  · by_cases ht : s.numThreads = 0 <;> simp [handleBeginFrame, ht]
  · intro id hid
    by_cases ht : s.numThreads = 0
    · have hcomp : (handleBeginFrame s tA).1 =
          purgePool (purgeCompleted
            { s with heap := (frameDrain tA s.heap s.queue 0).1,
                     queue := (frameDrain tA s.heap s.queue 0).2 } 0).1 := by
        simp [handleBeginFrame, ht]
      rw [hcomp] at hid ⊢
      exact purge0_no_completed
        { s with heap := (frameDrain tA s.heap s.queue 0).1,
                 queue := (frameDrain tA s.heap s.queue 0).2 } hnl id hid
    · have hcomp : (handleBeginFrame s tA).1 = purgePool (purgeCompleted s 0).1 := by
        simp [handleBeginFrame, ht]
      rw [hcomp] at hid ⊢
      exact purge0_no_completed s hnl id hid
  · intro ht
    refine ⟨?_, handleBeginFrame_queue s tA ht,
      iterateHook_empties s.queue.length oracles s ht hor (Nat.le_refl _)⟩
    obtain ⟨k, hk, hdrop, hall, hstop, hdone⟩ := frameDrain_spec tA s.queue s.heap 0
    refine ⟨k, hk, hdrop, ?_, ?_, hdone⟩
    · intro j hj
      simpa using hall j hj
    · rcases hstop with he | ⟨hlt, hfa⟩
      · exact Or.inl he
      · exact Or.inr ⟨hlt, by simpa using hfa⟩

/-- A no-worker scheduler with one pending queued item. -/
def c10State : WQState :=
  { heap := exHeap, workItems := [0], queue := [0], poolItems := [],
    paused := false, numThreads := 0, lastSize := 0, tolerance := 10, nextId := 1 }

/-- The same scheduler with one worker thread and a completed live item, so
the with-workers purge clauses are exercised too. -/
def c10Threaded : WQState :=
  { heap := fun i => { exHeap i with completed := i = 0 },
    workItems := [0], queue := [], poolItems := [],
    paused := false, numThreads := 1, lastSize := 0, tolerance := 10, nextId := 1 }

/-- C10 witness: with a time budget that always admits the first item,
repeated frame hooks empty the single-item no-worker queue; and for the
scheduler with a worker thread a single hook invocation still runs
`PurgeCompleted(0)` followed by `PurgePool()`, leaving no completed live
item. -/
theorem c10_witness :
    c10State.workItems.Nodup ∧ c10State.numThreads = 0 ∧
    (iterateHook (fun _ _ => true) c10State.queue.length c10State).queue = [] ∧
    c10Threaded.workItems.Nodup ∧ c10Threaded.numThreads = 1 ∧
    ((handleBeginFrame c10Threaded (fun _ => true)).1 =
      purgePool (purgeCompleted
        (if c10Threaded.numThreads = 0 then
          { c10Threaded with
              heap := (frameDrain (fun _ => true) c10Threaded.heap c10Threaded.queue 0).1,
              queue := (frameDrain (fun _ => true) c10Threaded.heap c10Threaded.queue 0).2 }
         else c10Threaded) 0).1) ∧
    (∀ id ∈ (handleBeginFrame c10Threaded (fun _ => true)).1.workItems,
      ((handleBeginFrame c10Threaded (fun _ => true)).1.heap id).completed = false) := by
  refine ⟨by decide, rfl, ?_, by decide, rfl, ?_, ?_⟩
  · exact ((c10_frame_hook c10State (fun _ => true) (fun _ _ => true) (by decide)
      (fun n => rfl)).2.2 rfl).2.2
  · exact (c10_frame_hook c10Threaded (fun _ => true) (fun _ _ => true) (by decide)
      (fun n => rfl)).1
  · exact (c10_frame_hook c10Threaded (fun _ => true) (fun _ _ => true) (by decide)
      (fun n => rfl)).2.1

end WorkQueueModel
